import Mathlib

/-!
Verification development for the causal-chain inference engine of the
Explainable-Anomaly-Detection repository (`src/app.py`).

The embedding mirrors `app.py`:
* events are the rows of the (timestamp-sorted) dataframe, modelled as a
  `List Event` in row order; timestamps are integers (seconds), so the
  24-hour `timedelta` becomes the constant `WINDOW = 24 * 60 * 60`;
* `CAUSAL_RULES` is the literal set of pairs from the source;
* `find_best_chain` follows the source line by line: take the last
  `COST_ANOMALY` row, then repeat `max_depth - 1` times: filter the
  dataframe to rows strictly earlier than the current head and at most
  24 hours before it, scan that slice from the latest row backwards
  (`candidates.iloc[::-1]`), and prepend the first row whose
  `(event_type, head.event_type)` pair is a causal rule; stop early when
  no row qualifies; return the chain only if it has more than one event;
* `confidence` is `round(len(chain) / max_depth, 2)`, modelled over `ℚ`
  (Python's 2-decimal rounding of these small rationals, modelled as
  rounding `100·q` to the nearest integer; no stated property depends on
  the tie-breaking direction);
* `explanation` and `report_text` are the f-string formatting of the
  source.
-/

namespace ExplainableAnomaly

/-- One row of the event-log dataframe: the columns `app.py` reads. -/
structure Event where
  timestamp : Int
  event_type : String
  resource_id : String
  actor : String
  metadata : String
deriving DecidableEq, Repr

/-- `timedelta(hours=24)` with timestamps in seconds. -/
def WINDOW : Int := 24 * 60 * 60

/-- The `CAUSAL_RULES` set literal of `app.py` (lines 112-118). -/
def CAUSAL_RULES : List (String × String) :=
  [("CPU_SPIKE", "RESOURCE_SCALE"),
   ("MEMORY_SURGE", "RESOURCE_SCALE"),
   ("RESOURCE_SCALE", "COST_ANOMALY"),
   ("CPU_SPIKE", "COST_ANOMALY"),
   ("MEMORY_SURGE", "COST_ANOMALY")]

/-- Membership test `(a, b) in CAUSAL_RULES`. -/
def inRules (a b : String) : Bool := CAUSAL_RULES.contains (a, b)

/-- `df[df["event_type"] == "COST_ANOMALY"]` (line 125). -/
def anomaliesOf (df : List Event) : List Event :=
  df.filter (fun e => e.event_type == "COST_ANOMALY")

/-- The candidate slice of lines 135-138:
`df[(df["timestamp"] < current_time) & (df["timestamp"] >= current_time - timedelta(hours=24))]`. -/
def candidatesOf (df : List Event) (t : Int) : List Event :=
  df.filter (fun e => decide (e.timestamp < t) && decide (t - WINDOW ≤ e.timestamp))

/-- The inner loop of lines 141-146: iterate the candidate slice reversed
(`candidates.iloc[::-1]`) and return the first row whose
`(event_type, headType)` pair is a causal rule. -/
def findPred (cands : List Event) (headType : String) : Option Event :=
  cands.reverse.find? (fun r => inRules r.event_type headType)

/-- The `for _ in range(max_depth - 1)` loop of lines 134-149: the fuel
counts remaining iterations; each iteration prepends the found predecessor
(`chain.insert(0, row)`) and moves `current_time` to its timestamp (which
is the new head's timestamp), or stops (`if not found: break`). -/
def growChain (df : List Event) : List Event → Nat → List Event
  | chain, 0 => chain
  | [], _ + 1 => []
  | head :: rest, n + 1 =>
    match findPred (candidatesOf df head.timestamp) head.event_type with
    | some r => growChain df (r :: head :: rest) n
    | none => head :: rest

/-- `find_best_chain(df, max_depth)` (lines 124-151): `anomalies.iloc[-1]`
is the last `COST_ANOMALY` row of the sorted dataframe; the result is the
grown chain when it has more than one event, else `None`.
`max_depth` is a `Nat`; as in Python, `range(max_depth - 1)` is empty for
`max_depth ≤ 1`. -/
def find_best_chain (df : List Event) (max_depth : Nat) : Option (List Event) :=
  match (anomaliesOf df).getLast? with
  | none => none
  | some anomaly =>
    if 1 < (growChain df [anomaly] (max_depth - 1)).length
    then some (growChain df [anomaly] (max_depth - 1))
    else none

/-- Python's `round(q, 2)` on the rationals arising here: the nearest
multiple of `1/100`. -/
def round2 (q : ℚ) : ℚ := (round (100 * q) : ℚ) / 100

/-- `confidence = round(len(chain) / max_depth, 2)` (line 196). -/
def confidence (chainLen max_depth : Nat) : ℚ :=
  round2 ((chainLen : ℚ) / (max_depth : ℚ))

/-- One explanation step: `f"{step['event_type']} on {step['resource_id']} by {step['actor']}"`
(line 172). -/
def renderStep (e : Event) : String :=
  e.event_type ++ " on " ++ e.resource_id ++ " by " ++ e.actor

/-- `explanation = " → ".join(explanation_steps)` (lines 171-176). -/
def explanation (chain : List Event) : String :=
  String.intercalate " → " (chain.map renderStep)

/-- `report_text` (lines 205-209), with the explanation string and the
rendered confidence number as inputs: the title line followed by the
causal-chain / confidence body. -/
def report_text (explanationText confidenceText : String) : String :=
  "Explainable Cloud Cost Anomaly Report\n\n" ++
    ("Causal Chain:\n" ++ explanationText ++ "\n\nConfidence Score: " ++
      confidenceText ++ "\n")

/-- A valid causal edge between two events, per the spec's `CausalGraph`:
strictly earlier, gap at most the window, pair in the rule set. -/
def validEdge (a b : Event) : Prop :=
  a.timestamp < b.timestamp ∧ b.timestamp - a.timestamp ≤ WINDOW ∧
    (a.event_type, b.event_type) ∈ CAUSAL_RULES

instance (a b : Event) : Decidable (validEdge a b) :=
  inferInstanceAs (Decidable (a.timestamp < b.timestamp ∧
    b.timestamp - a.timestamp ≤ WINDOW ∧ (a.event_type, b.event_type) ∈ CAUSAL_RULES))

/-- `q` qualifies as an immediate predecessor of head `h`: the candidate
filter condition together with the rule test of the inner loop. -/
def qualifiesPred (q h : Event) : Bool :=
  decide (q.timestamp < h.timestamp) && decide (h.timestamp - WINDOW ≤ q.timestamp) &&
    inRules q.event_type h.event_type

/-- A candidate causal chain over the event list `df`, as the spec's
`ChainSearch` enumerates them: at least two events, consecutive valid
edges, ending at a `COST_ANOMALY` event, drawn from `df`. -/
def candidateChain (df : List Event) (c : List Event) : Prop :=
  2 ≤ c.length ∧ List.Chain' validEdge c ∧
    (∃ z, c.getLast? = some z ∧ z.event_type = "COST_ANOMALY") ∧
    ∀ e ∈ c, e ∈ df

/-- Line 79 (`df.sort_values("timestamp")`) guarantees that the event list
fed to `find_best_chain` is ascending in timestamp. -/
def sortedByTime (df : List Event) : Prop :=
  df.Pairwise (fun a b => a.timestamp ≤ b.timestamp)

/-- The relation that one greedy extension step of the inner loop
establishes between the chosen predecessor `p` and the head `h` it
extends: `p` qualifies, and `p` is at least as late as every qualifying
event of the dataframe. -/
def greedyStep (df : List Event) (p h : Event) : Prop :=
  qualifiesPred p h = true ∧
    ∀ q ∈ df, qualifiesPred q h = true → q.timestamp ≤ p.timestamp

/-- Scenario A events: CPU_SPIKE at t0, RESOURCE_SCALE at t0+1h,
COST_ANOMALY at t0+2h, same resource. -/
def evA_cpu : Event := ⟨0, "CPU_SPIKE", "r1", "alice", "m1"⟩

def evA_scale : Event := ⟨3600, "RESOURCE_SCALE", "r1", "autoscaler", "m2"⟩

def evA_cost : Event := ⟨7200, "COST_ANOMALY", "r1", "system", "m3"⟩

def scenarioA : List Event := [evA_cpu, evA_scale, evA_cost]

/-- Two-anomaly input: an early COST_ANOMALY preceded by a valid cause,
then a much later COST_ANOMALY with nothing inside its 24-hour lookback. -/
def evB_cpu : Event := ⟨0, "CPU_SPIKE", "r2", "bob", "m4"⟩

def evB_cost1 : Event := ⟨3600, "COST_ANOMALY", "r2", "system", "m5"⟩

def evB_cost2 : Event := ⟨1000000, "COST_ANOMALY", "r3", "system", "m6"⟩

def twoAnomalies : List Event := [evB_cpu, evB_cost1, evB_cost2]

/-- A single isolated COST_ANOMALY event. -/
def evLone : Event := ⟨0, "COST_ANOMALY", "r4", "system", "m7"⟩

def loneAnomaly : List Event := [evLone]

instance (df : List Event) : Decidable (sortedByTime df) :=
  inferInstanceAs (Decidable (df.Pairwise (fun a b : Event => a.timestamp ≤ b.timestamp)))

/-! ### Helper lemmas about the embedded functions -/

lemma mem_CAUSAL_RULES_of_inRules {a b : String} (h : inRules a b = true) :
    (a, b) ∈ CAUSAL_RULES := by
  simpa [inRules, List.contains] using h

lemma inRules_of_mem_CAUSAL_RULES {a b : String} (h : (a, b) ∈ CAUSAL_RULES) :
    inRules a b = true := by
  simpa [inRules, List.contains] using h

lemma mem_candidatesOf {df : List Event} {t : Int} {e : Event} :
    e ∈ candidatesOf df t ↔ e ∈ df ∧ e.timestamp < t ∧ t - WINDOW ≤ e.timestamp := by
  simp [candidatesOf, List.mem_filter]

lemma qualifiesPred_iff {q h : Event} :
    qualifiesPred q h = true ↔
      q.timestamp < h.timestamp ∧ h.timestamp - WINDOW ≤ q.timestamp ∧
        inRules q.event_type h.event_type = true := by
  simp [qualifiesPred, Bool.and_eq_true, and_assoc]

lemma findPred_eq_some {cands : List Event} {ht : String} {r : Event}
    (h : findPred cands ht = some r) :
    r ∈ cands ∧ inRules r.event_type ht = true := by
  unfold findPred at h
  refine ⟨List.mem_reverse.mp (List.mem_of_find?_eq_some h), ?_⟩
  have hp := List.find?_some h
  simpa using hp

lemma growChain_zero (df chain : List Event) : growChain df chain 0 = chain := by
  match chain with
  | [] => rfl
  | head :: rest => rfl

lemma growChain_nil (df : List Event) (n : Nat) : growChain df [] n = [] := by
  cases n <;> rfl

lemma growChain_succ_cons (df : List Event) (head : Event) (rest : List Event) (n : Nat) :
    growChain df (head :: rest) (n + 1) =
      match findPred (candidatesOf df head.timestamp) head.event_type with
      | some r => growChain df (r :: head :: rest) n
      | none => head :: rest := rfl

lemma findPred_validEdge {df : List Event} {h r : Event}
    (hf : findPred (candidatesOf df h.timestamp) h.event_type = some r) :
    validEdge r h ∧ r ∈ df ∧ qualifiesPred r h = true := by
  obtain ⟨hmem, hrule⟩ := findPred_eq_some hf
  rw [mem_candidatesOf] at hmem
  obtain ⟨hdf, hlt, hwin⟩ := hmem
  refine ⟨⟨hlt, by omega, mem_CAUSAL_RULES_of_inRules hrule⟩, hdf, ?_⟩
  exact qualifiesPred_iff.mpr ⟨hlt, hwin, hrule⟩

lemma findPred_eq_none_of_no_qualifier {df : List Event} {a : Event}
    (h : ∀ q ∈ df, qualifiesPred q a = false) :
    findPred (candidatesOf df a.timestamp) a.event_type = none := by
  cases hf : findPred (candidatesOf df a.timestamp) a.event_type with
  | none => rfl
  | some r =>
    obtain ⟨_, hdf, hq⟩ := findPred_validEdge hf
    rw [h r hdf] at hq
    exact absurd hq (by simp)

lemma growChain_ne_nil {df : List Event} :
    ∀ (n : Nat) (chain : List Event), chain ≠ [] → growChain df chain n ≠ [] := by
  intro n
  induction n with
  | zero => intro chain h; rw [growChain_zero]; exact h
  | succ n ih =>
    intro chain h
    match chain with
    | [] => exact absurd rfl h
    | head :: rest =>
      rw [growChain_succ_cons]
      cases hf : findPred (candidatesOf df head.timestamp) head.event_type with
      | some r => exact ih _ (List.cons_ne_nil _ _)
      | none => exact List.cons_ne_nil _ _

lemma growChain_getLast? {df : List Event} :
    ∀ (n : Nat) (chain : List Event), chain ≠ [] →
      (growChain df chain n).getLast? = chain.getLast? := by
  intro n
  induction n with
  | zero => intro chain _; rw [growChain_zero]
  | succ n ih =>
    intro chain h
    match chain with
    | [] => exact absurd rfl h
    | head :: rest =>
      rw [growChain_succ_cons]
      cases hf : findPred (candidatesOf df head.timestamp) head.event_type with
      | some r =>
        rw [ih _ (List.cons_ne_nil _ _), List.getLast?_cons_cons]
      | none => rfl

lemma length_growChain_le {df : List Event} :
    ∀ (n : Nat) (chain : List Event), (growChain df chain n).length ≤ chain.length + n := by
  intro n
  induction n with
  | zero => intro chain; rw [growChain_zero]; omega
  | succ n ih =>
    intro chain
    match chain with
    | [] => rw [growChain_nil]; simp
    | head :: rest =>
      rw [growChain_succ_cons]
      cases hf : findPred (candidatesOf df head.timestamp) head.event_type with
      | some r =>
        have := ih (r :: head :: rest)
        simp only [List.length_cons] at this ⊢
        omega
      | none => simp

lemma le_length_growChain {df : List Event} :
    ∀ (n : Nat) (chain : List Event), chain.length ≤ (growChain df chain n).length := by
  intro n
  induction n with
  | zero => intro chain; rw [growChain_zero]
  | succ n ih =>
    intro chain
    match chain with
    | [] => rw [growChain_nil]
    | head :: rest =>
      rw [growChain_succ_cons]
      cases hf : findPred (candidatesOf df head.timestamp) head.event_type with
      | some r =>
        have := ih (r :: head :: rest)
        simp only [List.length_cons] at this ⊢
        omega
      | none => exact le_refl _

lemma length_growChain_mono {df : List Event} :
    ∀ (n m : Nat), n ≤ m → ∀ (chain : List Event),
      (growChain df chain n).length ≤ (growChain df chain m).length := by
  intro n
  induction n with
  | zero =>
    intro m _ chain
    rw [growChain_zero]
    exact le_length_growChain m chain
  | succ n ih =>
    intro m hm chain
    match m, hm with
    | m + 1, hm =>
      match chain with
      | [] => rw [growChain_nil, growChain_nil]
      | head :: rest =>
        rw [growChain_succ_cons, growChain_succ_cons]
        cases hf : findPred (candidatesOf df head.timestamp) head.event_type with
        | some r => exact ih m (Nat.le_of_succ_le_succ hm) _
        | none => exact le_refl _

lemma growChain_chain' {df : List Event} {R : Event → Event → Prop}
    (hR : ∀ h r : Event,
      findPred (candidatesOf df h.timestamp) h.event_type = some r → R r h) :
    ∀ (n : Nat) (chain : List Event), List.Chain' R chain →
      List.Chain' R (growChain df chain n) := by
  intro n
  induction n with
  | zero => intro chain hc; rw [growChain_zero]; exact hc
  | succ n ih =>
    intro chain hc
    match chain with
    | [] => rw [growChain_nil]; exact hc
    | head :: rest =>
      rw [growChain_succ_cons]
      cases hf : findPred (candidatesOf df head.timestamp) head.event_type with
      | some r =>
        exact ih _ (List.chain'_cons.mpr ⟨hR head r hf, hc⟩)
      | none => exact hc

lemma growChain_subset {df : List Event} :
    ∀ (n : Nat) (chain : List Event), (∀ e ∈ chain, e ∈ df) →
      ∀ e ∈ growChain df chain n, e ∈ df := by
  intro n
  induction n with
  | zero => intro chain h; rw [growChain_zero]; exact h
  | succ n ih =>
    intro chain h
    match chain with
    | [] => rw [growChain_nil]; exact h
    | head :: rest =>
      rw [growChain_succ_cons]
      cases hf : findPred (candidatesOf df head.timestamp) head.event_type with
      | some r =>
        refine ih _ ?_
        intro e he
        rcases List.mem_cons.mp he with rfl | he'
        · exact (findPred_validEdge hf).2.1
        · exact h e he'
      | none => exact h

lemma anomaliesOf_spec {df : List Event} {e : Event} :
    e ∈ anomaliesOf df ↔ e ∈ df ∧ e.event_type = "COST_ANOMALY" := by
  simp [anomaliesOf, List.mem_filter]

lemma find_best_chain_eq_some {df : List Event} {d : Nat} {c : List Event}
    (h : find_best_chain df d = some c) :
    ∃ a, (anomaliesOf df).getLast? = some a ∧
      c = growChain df [a] (d - 1) ∧ 1 < c.length := by
  unfold find_best_chain at h
  cases ha : (anomaliesOf df).getLast? with
  | none => rw [ha] at h; exact absurd h (by simp)
  | some a =>
    rw [ha] at h
    have h' : (if 1 < (growChain df [a] (d - 1)).length
        then some (growChain df [a] (d - 1)) else none) = some c := h
    by_cases hl : 1 < (growChain df [a] (d - 1)).length
    · rw [if_pos hl] at h'
      obtain rfl := Option.some.inj h'
      exact ⟨a, rfl, rfl, hl⟩
    · rw [if_neg hl] at h'
      exact absurd h' (by simp)

lemma find_best_chain_sound {df : List Event} {d : Nat} {c : List Event}
    (h : find_best_chain df d = some c) :
    candidateChain df c ∧ c.getLast? = (anomaliesOf df).getLast? := by
  obtain ⟨a, ha, rfl, hl⟩ := find_best_chain_eq_some h
  have hadf := (anomaliesOf_spec.mp (List.mem_of_getLast?_eq_some ha))
  have hlast : (growChain df [a] (d - 1)).getLast? = [a].getLast? :=
    growChain_getLast? (d - 1) [a] (by simp)
  refine ⟨⟨by omega, ?_, ?_, ?_⟩, by rw [hlast, ha]; rfl⟩
  · exact growChain_chain' (fun hd r hf => (findPred_validEdge hf).1)
      (d - 1) [a] (List.chain'_singleton a)
  · exact ⟨a, by rw [hlast]; rfl, hadf.2⟩
  · exact growChain_subset (d - 1) [a] (by simpa using hadf.1)

lemma find_best_chain_some_anomaly {df : List Event} {a : Event} {d : Nat}
    (ha : (anomaliesOf df).getLast? = some a) :
    find_best_chain df d =
      if 1 < (growChain df [a] (d - 1)).length
      then some (growChain df [a] (d - 1)) else none := by
  unfold find_best_chain
  rw [ha]

lemma find_best_chain_none_anomaly {df : List Event} {d : Nat}
    (ha : (anomaliesOf df).getLast? = none) :
    find_best_chain df d = none := by
  unfold find_best_chain
  rw [ha]

lemma growChain_singleton_stuck {df : List Event} {a : Event} (n : Nat)
    (h : findPred (candidatesOf df a.timestamp) a.event_type = none) :
    growChain df [a] n = [a] := by
  cases n with
  | zero => exact growChain_zero _ _
  | succ n => rw [growChain_succ_cons, h]

lemma find?_max_of_desc {p : Event → Bool} :
    ∀ {m : List Event}, m.Pairwise (fun a b => b.timestamp ≤ a.timestamp) →
      ∀ {r : Event}, m.find? p = some r →
        ∀ q ∈ m, p q = true → q.timestamp ≤ r.timestamp := by
  intro m
  induction m with
  | nil => intro _ r hr; simp at hr
  | cons x xs ih =>
    intro hp r hr q hq hpq
    by_cases hx : p x = true
    · rw [List.find?_cons_of_pos _ hx] at hr
      obtain rfl := Option.some.inj hr
      rcases List.mem_cons.mp hq with rfl | hq'
      · exact le_refl _
      · exact (List.pairwise_cons.mp hp).1 q hq'
    · rw [List.find?_cons_of_neg _ hx] at hr
      rcases List.mem_cons.mp hq with rfl | hq'
      · exact absurd hpq hx
      · exact ih (List.pairwise_cons.mp hp).2 hr q hq' hpq

lemma candidatesOf_sorted {df : List Event} {t : Int} (hs : sortedByTime df) :
    (candidatesOf df t).Pairwise (fun a b => a.timestamp ≤ b.timestamp) :=
  List.Pairwise.sublist (List.filter_sublist df) hs

lemma anomaliesOf_sorted {df : List Event} (hs : sortedByTime df) :
    (anomaliesOf df).Pairwise (fun a b => a.timestamp ≤ b.timestamp) :=
  List.Pairwise.sublist (List.filter_sublist df) hs

lemma findPred_greedy {df : List Event} {h r : Event} (hs : sortedByTime df)
    (hf : findPred (candidatesOf df h.timestamp) h.event_type = some r) :
    greedyStep df r h := by
  refine ⟨(findPred_validEdge hf).2.2, ?_⟩
  intro q hq hqual
  obtain ⟨hlt, hwin, hrule⟩ := qualifiesPred_iff.mp hqual
  have hqc : q ∈ candidatesOf df h.timestamp := mem_candidatesOf.mpr ⟨hq, hlt, hwin⟩
  have hdesc : (candidatesOf df h.timestamp).reverse.Pairwise
      (fun a b => b.timestamp ≤ a.timestamp) := by
    rw [List.pairwise_reverse]
    exact candidatesOf_sorted hs
  unfold findPred at hf
  exact find?_max_of_desc hdesc hf q (List.mem_reverse.mpr hqc) hrule

lemma getLast?_max_of_sorted :
    ∀ {l : List Event}, l.Pairwise (fun a b => a.timestamp ≤ b.timestamp) →
      ∀ {a : Event}, l.getLast? = some a → ∀ x ∈ l, x.timestamp ≤ a.timestamp := by
  intro l
  induction l with
  | nil => intro _ a ha; simp at ha
  | cons x xs ih =>
    intro hp a ha y hy
    cases xs with
    | nil =>
      have hxa : x = a := Option.some.inj ha
      subst hxa
      rcases List.mem_cons.mp hy with rfl | hy'
      · exact le_refl _
      · simp at hy'
    | cons z zs =>
      rw [List.getLast?_cons_cons] at ha
      rcases List.mem_cons.mp hy with rfl | hy'
      · exact (List.pairwise_cons.mp hp).1 a (List.mem_of_getLast?_eq_some ha)
      · exact ih (List.pairwise_cons.mp hp).2 ha y hy'

lemma intercalate_go_append (s : String) :
    ∀ (l : List String) (x y : String),
      String.intercalate.go (x ++ y) s l = x ++ String.intercalate.go y s l := by
  intro l
  induction l with
  | nil => intro x y; rfl
  | cons a as ih =>
    intro x y
    show String.intercalate.go (x ++ y ++ s ++ a) s as =
      x ++ String.intercalate.go (y ++ s ++ a) s as
    rw [← ih]
    simp [String.append_assoc]

lemma explanation_cons_cons (e1 e2 : Event) (c : List Event) :
    explanation (e1 :: e2 :: c) = renderStep e1 ++ " → " ++ explanation (e2 :: c) := by
  show String.intercalate.go (renderStep e1 ++ " → " ++ renderStep e2) " → " (c.map renderStep) =
    renderStep e1 ++ " → " ++ String.intercalate.go (renderStep e2) " → " (c.map renderStep)
  exact intercalate_go_append " → " (c.map renderStep) (renderStep e1 ++ " → ") (renderStep e2)

/-! ### Claim theorems -/

/-- C1 (counterexample): the chain search does not consider every node of
terminal type nor return the best candidate across all terminal nodes: on
`twoAnomalies` a valid candidate chain of length 2 ends at the earlier
COST_ANOMALY, yet `find_best_chain` returns no chain at all, because it
only ever starts from the last COST_ANOMALY row, which has no qualifying
predecessor. -/
theorem chain_search_not_global_cex :
    candidateChain twoAnomalies [evB_cpu, evB_cost1] ∧
      find_best_chain twoAnomalies 3 = none := by
  refine ⟨⟨by decide, ?_, ⟨evB_cost1, by decide, by decide⟩, by decide⟩, by decide⟩
  exact List.chain'_cons.mpr ⟨by decide, List.chain'_singleton _⟩

/-- C1 (amended): the chain search considers only the most recent
COST_ANOMALY event (the last one in the sorted input) as a traversal
start: every returned chain ends exactly at that event and is the single
greedily grown chain from it; no other terminal node is used and no
candidate comparison takes place. -/
theorem chain_search_single_terminal {df : List Event} {d : Nat} {c : List Event}
    (h : find_best_chain df d = some c) :
    ∃ a, (anomaliesOf df).getLast? = some a ∧ c.getLast? = some a ∧
      a.event_type = "COST_ANOMALY" ∧ c = growChain df [a] (d - 1) := by
  obtain ⟨a, ha, rfl, hl⟩ := find_best_chain_eq_some h
  have hlast : (growChain df [a] (d - 1)).getLast? = [a].getLast? :=
    growChain_getLast? (d - 1) [a] (by simp)
  have hadf := anomaliesOf_spec.mp (List.mem_of_getLast?_eq_some ha)
  exact ⟨a, ha, by rw [hlast]; rfl, hadf.2, rfl⟩

/-- C1 (witness): the amended statement instantiated at Scenario A. -/
theorem chain_search_single_terminal_witness :
    ∃ a, (anomaliesOf scenarioA).getLast? = some a ∧
      ([evA_cpu, evA_scale, evA_cost] : List Event).getLast? = some a ∧
      a.event_type = "COST_ANOMALY" ∧
      [evA_cpu, evA_scale, evA_cost] = growChain scenarioA [a] (3 - 1) :=
  @chain_search_single_terminal scenarioA 3 [evA_cpu, evA_scale, evA_cost] (by decide)

/-- C2: every chain returned by `find_best_chain` has length at least 2
and every consecutive pair of its events is a valid causal edge (strictly
earlier, within the 24-hour window, pair in the causal rule set). -/
theorem returned_chain_valid {df : List Event} {d : Nat} {c : List Event}
    (h : find_best_chain df d = some c) :
    2 ≤ c.length ∧ List.Chain' validEdge c :=
  ⟨(find_best_chain_sound h).1.1, (find_best_chain_sound h).1.2.1⟩

/-- C2 (witness): the validity statement instantiated at Scenario A. -/
theorem returned_chain_valid_witness :
    2 ≤ ([evA_cpu, evA_scale, evA_cost] : List Event).length ∧
      List.Chain' validEdge [evA_cpu, evA_scale, evA_cost] :=
  @returned_chain_valid scenarioA 3 [evA_cpu, evA_scale, evA_cost] (by decide)

/-- C3 (counterexample): the rule set of the code does not contain the
pairs TRAFFIC_SPIKE→COST_ANOMALY and CONFIG_CHANGE→RESOURCE_SCALE that
the claim asserts membership returns true for. -/
theorem causal_rules_missing_pairs_cex :
    inRules "TRAFFIC_SPIKE" "COST_ANOMALY" = false ∧
      inRules "CONFIG_CHANGE" "RESOURCE_SCALE" = false := by decide

/-- C3 (amended): membership in the default causal rule set holds for
exactly the five pairs hard-coded in `CAUSAL_RULES` and for no other pair
of event types. -/
theorem causal_rules_exact_five (a b : String) :
    inRules a b = true ↔
      (a = "CPU_SPIKE" ∧ b = "RESOURCE_SCALE") ∨
      (a = "MEMORY_SURGE" ∧ b = "RESOURCE_SCALE") ∨
      (a = "RESOURCE_SCALE" ∧ b = "COST_ANOMALY") ∨
      (a = "CPU_SPIKE" ∧ b = "COST_ANOMALY") ∨
      (a = "MEMORY_SURGE" ∧ b = "COST_ANOMALY") := by
  constructor
  · intro h
    have := mem_CAUSAL_RULES_of_inRules h
    simpa [CAUSAL_RULES, Prod.ext_iff] using this
  · intro h
    apply inRules_of_mem_CAUSAL_RULES
    simp only [CAUSAL_RULES, List.mem_cons, List.not_mem_nil, or_false, Prod.ext_iff]
    tauto

/-- C4: on the three Scenario A events (CPU_SPIKE at t0, RESOURCE_SCALE
at t0+1h, COST_ANOMALY at t0+2h, same resource) with the default rules,
24-hour window and maxDepth 3, the search returns the chain
[CPU_SPIKE, RESOURCE_SCALE, COST_ANOMALY] and the confidence is 1. -/
theorem scenarioA_expected_result :
    find_best_chain scenarioA 3 = some [evA_cpu, evA_scale, evA_cost] ∧
      confidence 3 3 = 1 := by
  constructor
  · decide
  · unfold confidence round2
    norm_num [round_eq]

/-- C5: the search returns `none` whenever no candidate chain of length
at least 2 exists; in particular with no COST_ANOMALY event, with
maxDepth below 2, and when the terminal event has no qualifying
predecessor; and it never returns a chain of length below 2. -/
theorem no_chain_result_cases (df : List Event) (d : Nat) :
    ((∀ c, ¬ candidateChain df c) → find_best_chain df d = none) ∧
    ((∀ e ∈ df, e.event_type ≠ "COST_ANOMALY") → find_best_chain df d = none) ∧
    (d < 2 → find_best_chain df d = none) ∧
    (∀ a, (anomaliesOf df).getLast? = some a →
      (∀ q ∈ df, qualifiesPred q a = false) → find_best_chain df d = none) ∧
    (∀ c, find_best_chain df d = some c → 2 ≤ c.length) := by
  refine ⟨?_, ?_, ?_, ?_, ?_⟩
  · intro hno
    cases hr : find_best_chain df d with
    | none => rfl
    | some c => exact absurd (find_best_chain_sound hr).1 (hno c)
  · intro hnoA
    apply find_best_chain_none_anomaly
    have hnil : anomaliesOf df = [] := by
      apply List.filter_eq_nil_iff.mpr
      intro e he
      simpa using hnoA e he
    rw [hnil]
    rfl
  · intro hd
    cases ha : (anomaliesOf df).getLast? with
    | none => exact find_best_chain_none_anomaly ha
    | some a =>
      rw [find_best_chain_some_anomaly ha]
      have h1 : d - 1 = 0 := by omega
      rw [h1, growChain_zero]
      simp
  · intro a ha hq
    rw [find_best_chain_some_anomaly ha,
      growChain_singleton_stuck _ (findPred_eq_none_of_no_qualifier hq)]
    simp
  · intro c hc
    exact (find_best_chain_sound hc).1.1

/-- C5 (witness): the none-result cases instantiated at concrete inputs:
empty input, an input with no COST_ANOMALY, Scenario A with maxDepth 1,
an isolated COST_ANOMALY, and the length bound at Scenario A. -/
theorem no_chain_result_cases_witness :
    find_best_chain ([] : List Event) 3 = none ∧
      find_best_chain ([evB_cpu] : List Event) 3 = none ∧
      find_best_chain scenarioA 1 = none ∧
      find_best_chain loneAnomaly 3 = none ∧
      2 ≤ ([evA_cpu, evA_scale, evA_cost] : List Event).length := by
  refine ⟨(no_chain_result_cases [] 3).1 ?_,
    (no_chain_result_cases [evB_cpu] 3).2.1 (by decide),
    (no_chain_result_cases scenarioA 1).2.2.1 (by omega),
    (no_chain_result_cases loneAnomaly 3).2.2.2.1 evLone (by decide) (by decide),
    (no_chain_result_cases scenarioA 3).2.2.2.2 [evA_cpu, evA_scale, evA_cost] (by decide)⟩
  intro c hc
  match c, hc with
  | [], hc => exact absurd hc.1 (by decide)
  | e :: rest, hc => exact absurd (hc.2.2.2 e (List.mem_cons_self e rest)) (List.not_mem_nil e)

/-- C6: for every found chain with maxDepth at least 2, the confidence is
`len(chain) / maxDepth` rounded to 2 decimal places, the chain's length
never exceeds maxDepth, and the confidence lies in [0, 1]. -/
theorem confidence_formula_in_range {df : List Event} {d : Nat} {c : List Event}
    (hd : 2 ≤ d) (h : find_best_chain df d = some c) :
    confidence c.length d = round2 ((c.length : ℚ) / (d : ℚ)) ∧
      c.length ≤ d ∧
      0 ≤ confidence c.length d ∧ confidence c.length d ≤ 1 := by
  obtain ⟨a, ha, rfl, hl⟩ := find_best_chain_eq_some h
  have hlen := @length_growChain_le df (d - 1) [a]
  simp only [List.length_cons, List.length_nil] at hlen
  have hle : (growChain df [a] (d - 1)).length ≤ d := by omega
  set L := (growChain df [a] (d - 1)).length with hLdef
  have hdq : (0 : ℚ) < (d : ℚ) := by exact_mod_cast (by omega : 0 < d)
  have hq0 : (0 : ℚ) ≤ (L : ℚ) / (d : ℚ) := by positivity
  have hq1 : (L : ℚ) / (d : ℚ) ≤ 1 := by
    rw [div_le_one hdq]
    exact_mod_cast hle
  refine ⟨rfl, hle, ?_, ?_⟩
  · unfold confidence round2
    apply div_nonneg _ (by norm_num)
    have hfl : (0 : ℤ) ≤ ⌊(100 : ℚ) * ((L : ℚ) / (d : ℚ)) + 1 / 2⌋ :=
      Int.floor_nonneg.mpr (by linarith)
    rw [round_eq]
    exact_mod_cast hfl
  · unfold confidence round2
    rw [div_le_one (by norm_num), round_eq]
    have h101 : ⌊(100 : ℚ) * ((L : ℚ) / (d : ℚ)) + 1 / 2⌋ < 101 :=
      Int.floor_lt.mpr (by push_cast; linarith)
    have h100 : ⌊(100 : ℚ) * ((L : ℚ) / (d : ℚ)) + 1 / 2⌋ ≤ 100 := by omega
    exact_mod_cast h100

/-- C6 (witness): the confidence bounds instantiated at Scenario A. -/
theorem confidence_formula_in_range_witness :
    confidence ([evA_cpu, evA_scale, evA_cost] : List Event).length 3 =
        round2 ((([evA_cpu, evA_scale, evA_cost] : List Event).length : ℚ) / (3 : ℚ)) ∧
      ([evA_cpu, evA_scale, evA_cost] : List Event).length ≤ 3 ∧
      0 ≤ confidence ([evA_cpu, evA_scale, evA_cost] : List Event).length 3 ∧
      confidence ([evA_cpu, evA_scale, evA_cost] : List Event).length 3 ≤ 1 :=
  @confidence_formula_in_range scenarioA 3 [evA_cpu, evA_scale, evA_cost] (by omega) (by decide)

/-- C7 (counterexample): the downloadable report text is not of the form
`"Causal Chain:\n<explanationText>\n\nConfidence Score: <confidence>\n"`:
at a concrete chain it differs from that form, because the code prepends
the header `"Explainable Cloud Cost Anomaly Report\n\n"`. -/
theorem report_text_form_cex :
    report_text (explanation [evA_scale, evA_cost]) "0.67" ≠
      "Causal Chain:\n" ++ explanation [evA_scale, evA_cost] ++
        "\n\nConfidence Score: " ++ "0.67" ++ "\n" := by decide

/-- C7 (amended): the explanation text renders the chain earliest-first,
each event as `"<event_type> on <resource_id> by <actor>"`, joined with
`" → "`; the report text is the header
`"Explainable Cloud Cost Anomaly Report\n\n"` followed by
`"Causal Chain:\n<explanationText>\n\nConfidence Score: <confidence>\n"`. -/
theorem explanation_report_format (c : List Event) (e1 e2 : Event) (s : String) :
    explanation [e1] = e1.event_type ++ " on " ++ e1.resource_id ++ " by " ++ e1.actor ∧
    explanation (e1 :: e2 :: c) = renderStep e1 ++ " → " ++ explanation (e2 :: c) ∧
    report_text (explanation (e1 :: e2 :: c)) s =
      "Explainable Cloud Cost Anomaly Report\n\n" ++
        ("Causal Chain:\n" ++ explanation (e1 :: e2 :: c) ++
          "\n\nConfidence Score: " ++ s ++ "\n") :=
  ⟨rfl, explanation_cons_cons e1 e2 c, rfl⟩

/-- C9: increasing maxDepth never decreases the length of the found
chain: whenever a chain is found at depth `d1 ≤ d2`, a chain at least as
long is found at depth `d2`. -/
theorem best_chain_depth_monotone {df : List Event} {d1 d2 : Nat} (hd : d1 ≤ d2)
    {c1 : List Event} (h1 : find_best_chain df d1 = some c1) :
    ∃ c2, find_best_chain df d2 = some c2 ∧ c1.length ≤ c2.length := by
  obtain ⟨a, ha, rfl, hl⟩ := find_best_chain_eq_some h1
  have hmono := @length_growChain_mono df (d1 - 1) (d2 - 1) (by omega) [a]
  refine ⟨growChain df [a] (d2 - 1), ?_, hmono⟩
  rw [find_best_chain_some_anomaly ha, if_pos (by omega)]

/-- C9 (witness): monotonicity instantiated at Scenario A, depths 3 and 4. -/
theorem best_chain_depth_monotone_witness :
    ∃ c2, find_best_chain scenarioA 4 = some c2 ∧
      ([evA_cpu, evA_scale, evA_cost] : List Event).length ≤ c2.length :=
  @best_chain_depth_monotone scenarioA 3 4 (by omega) [evA_cpu, evA_scale, evA_cost] (by decide)

/-- C10: chain construction is greedy on recency: on a timestamp-sorted
input, the returned chain ends at a COST_ANOMALY event no earlier than
any other COST_ANOMALY event, and every consecutive pair consists of the
head and a qualifying predecessor at least as late as every qualifying
event of the input. -/
theorem greedy_recency {df : List Event} {d : Nat} {c : List Event}
    (hs : sortedByTime df) (h : find_best_chain df d = some c) :
    (∃ a, c.getLast? = some a ∧ a.event_type = "COST_ANOMALY" ∧
      ∀ e ∈ df, e.event_type = "COST_ANOMALY" → e.timestamp ≤ a.timestamp) ∧
    List.Chain' (greedyStep df) c := by
  obtain ⟨a, ha, rfl, hl⟩ := find_best_chain_eq_some h
  have hlast : (growChain df [a] (d - 1)).getLast? = [a].getLast? :=
    growChain_getLast? (d - 1) [a] (by simp)
  have hadf := anomaliesOf_spec.mp (List.mem_of_getLast?_eq_some ha)
  refine ⟨⟨a, by rw [hlast]; rfl, hadf.2, ?_⟩, ?_⟩
  · intro e he het
    exact getLast?_max_of_sorted (anomaliesOf_sorted hs) ha e
      (anomaliesOf_spec.mpr ⟨he, het⟩)
  · exact growChain_chain' (fun hd r hf => findPred_greedy hs hf) (d - 1) [a]
      (List.chain'_singleton a)

/-- C10 (witness): the greedy characterization instantiated at Scenario A. -/
theorem greedy_recency_witness :
    (∃ a, ([evA_cpu, evA_scale, evA_cost] : List Event).getLast? = some a ∧
      a.event_type = "COST_ANOMALY" ∧
      ∀ e ∈ scenarioA, e.event_type = "COST_ANOMALY" → e.timestamp ≤ a.timestamp) ∧
    List.Chain' (greedyStep scenarioA) [evA_cpu, evA_scale, evA_cost] :=
  @greedy_recency scenarioA 3 [evA_cpu, evA_scale, evA_cost] (by decide) (by decide)

end ExplainableAnomaly
